import Mathlib

/-!
Verification development for the sketch repository (dataset profiling and
joinable-table discovery).  The definitions below are a shallow embedding of
`sketch/core.py` and of the relevant route handlers of `sketch/api/main.py`.
Parts of the repository that are referenced by the embedded code but whose
files are not present (the sketch-algorithm library `sketch/sketches.py`,
the provenance layer `sketch/references.py`, and the data-access layer
`sketch/api/data.py`) are modelled from the specification; each such
definition carries a doc comment saying so.

Python-level conventions used throughout the embedding:
* fallible code returns `Except PyError`;
* Python dicts are insertion-ordered association lists; assignment to an
  existing key replaces the value in place, a new key is appended;
* the float literal 0.97 is modelled as the rational 97/100, and scores are
  rationals;
* `None` is modelled by `Option.none`.
-/

namespace SketchSpec

/-- Python exception classes that the embedded code can raise. -/
inductive PyError where
  | assertionError
  | typeError
  | attributeError
  | keyError
  | valueError
deriving DecidableEq, Repr

/-- One column of a tabular frame: `series.name` and its values.  Column
values are modelled as natural numbers (any hashable value type works). -/
structure Series where
  name : String
  values : List Nat
deriving DecidableEq, Repr

/-- A tabular frame, as seen by `Portfolio.add_dataframe`: iterating
`df.columns` and indexing `df[col]` yields each column in order. -/
structure DataFrame where
  columns : List Series
deriving DecidableEq, Repr

/-- Modelled from the spec: `sketch/references.py` is not in the tree.
Provenance of one sketched column; two concrete variants, a column of an
in-memory tabular frame (source descriptor, column name) and a column of a
relational-file table (file path, table name, column name). -/
inductive Reference where
  | pandasDataframeColumn (source : String) (column : String)
  | sqliteColumn (path : String) (table : String) (column : String)
deriving DecidableEq, Repr

/-- Modelled from the spec: the serialized form of a `Reference`, a plain
mapping carrying a discriminator tag; an unknown tag is representable so
that deserialization can fail on it. -/
inductive RefDoc where
  | pandasDataframeColumn (source : String) (column : String)
  | sqliteColumn (path : String) (table : String) (column : String)
  | unknownTag (tag : String)
deriving DecidableEq, Repr

/-- Modelled from the spec: `Reference.to_dict` serializes the variant with
its discriminator tag. -/
def Reference.to_dict : Reference → RefDoc
  | .pandasDataframeColumn source column => .pandasDataframeColumn source column
  | .sqliteColumn path table column => .sqliteColumn path table column

/-- Modelled from the spec: `Reference.from_dict` dispatches on the
discriminator tag and fails clearly when the tag is unrecognized. -/
def Reference.from_dict : RefDoc → Except PyError Reference
  | .pandasDataframeColumn source column => .ok (.pandasDataframeColumn source column)
  | .sqliteColumn path table column => .ok (.sqliteColumn path table column)
  | .unknownTag _ => .error .valueError

/-- Modelled from the spec: `sketch/sketches.py` is not in the tree.  The
three concrete sketch types observed by the callers: an approximate
distinct-count estimator, a set-similarity fingerprint, and an exact row
counter.  A sketch object is modelled as its data tagged by the concrete
class; the `name` attribute is a class attribute, hence determined by the
constructor. -/
inductive SketchData where
  | hyperloglog (est : ℚ)
  | minhash (hashes : List Nat)
  | rows (n : Nat)
deriving DecidableEq, Repr

/-- Modelled from the spec: the `name` class attribute of each concrete
sketch type. -/
def SketchData.name : SketchData → String
  | .hyperloglog _ => "HyperLogLog"
  | .minhash _ => "MinHash"
  | .rows _ => "Rows"

/-- Modelled from the spec: the serialized form of one sketch, a mapping
tagged with the sketch-type name; unknown type names are representable. -/
inductive SketchDoc where
  | hyperloglog (est : ℚ)
  | minhash (hashes : List Nat)
  | rows (n : Nat)
  | unknownType (tag : String)
deriving DecidableEq, Repr

/-- Modelled from the spec: serialization of one sketch to its tagged
mapping. -/
def SketchData.to_dict : SketchData → SketchDoc
  | .hyperloglog est => .hyperloglog est
  | .minhash hashes => .minhash hashes
  | .rows n => .rows n

/-- Modelled from the spec: `SketchBase.from_dict` reconstructs a sketch
through the registry lookup keyed by type name; an unknown type name fails
clearly. -/
def SketchBase.from_dict : SketchDoc → Except PyError SketchData
  | .hyperloglog est => .ok (.hyperloglog est)
  | .minhash hashes => .ok (.minhash hashes)
  | .rows n => .ok (.rows n)
  | .unknownType _ => .error .keyError

/-- Modelled from the spec: the estimated Jaccard similarity between the
value sets underlying two similarity fingerprints, a value in [0, 1].
Modelled as the exact intersection-over-union of the deduplicated hash
lists (the estimation accuracy is an implementation choice). -/
def jaccardEstimate (a b : List Nat) : ℚ :=
  let da := a.dedup
  let db := b.dedup
  let inter := (da.filter (fun x => x ∈ db)).length
  let union := da.length + db.length - inter
  (inter : ℚ) / (union : ℚ)

/-- Modelled from the spec: the distinct-count estimator built from a
column of values; modelled as the exact distinct count (register precision
is an implementation choice). -/
def hll_from_series (s : Series) : SketchData :=
  .hyperloglog (s.values.dedup.length : ℚ)

/-- Modelled from the spec: the similarity fingerprint built from a column
of values; modelled as the deduplicated value list under an identity
hash. -/
def minhash_from_series (s : Series) : SketchData :=
  .minhash s.values.dedup

/-- Modelled from the spec: the exact row counter built from a column of
values. -/
def rows_from_series (s : Series) : SketchData :=
  .rows s.values.length

/-- Modelled from the spec: `SketchBase.all_sketches()`, the registry list
of every known sketch type, each as its `from_series` constructor. -/
def all_sketches : List (Series → SketchData) :=
  [hll_from_series, minhash_from_series, rows_from_series]

/-- Decidable equality of fallible results, used to evaluate the embedded
code on concrete inputs. -/
instance {ε α : Type} [DecidableEq ε] [DecidableEq α] : DecidableEq (Except ε α) :=
  fun x y =>
    match x, y with
    | .error a, .error b =>
        match decEq a b with
        | isTrue h => isTrue (h ▸ rfl)
        | isFalse h => isFalse (fun hc => h (Except.error.inj hc))
    | .ok a, .ok b =>
        match decEq a b with
        | isTrue h => isTrue (h ▸ rfl)
        | isFalse h => isFalse (fun hc => h (Except.ok.inj hc))
    | .error _, .ok _ => isFalse (fun hc => Except.noConfusion hc)
    | .ok _, .error _ => isFalse (fun hc => Except.noConfusion hc)

/-- Left-to-right traversal of a list by a fallible function: a Python
list comprehension, the first raised exception propagating. -/
def exceptMap (f : α → Except PyError β) : List α → Except PyError (List β)
  | [] => .ok []
  | a :: as => do
      let b ← f a
      let bs ← exceptMap f as
      .ok (b :: bs)

/-- The metadata mapping of a SketchPad: identifier, creation-start
timestamp and, once built, a creation-end timestamp. -/
structure Metadata where
  id : String
  creation_start : String
  creation_end : Option String
deriving DecidableEq, Repr

/-- The class attribute `SketchPad.version` in `core.py`. -/
def currentVersion : String := "0.0.1"

/-- The `SketchPad` object of `core.py`: format version, generated
identifier, metadata, provenance reference, free-form context mapping and
the ordered collection of sketches. -/
structure SketchPad where
  version : String
  id : String
  metadata : Metadata
  reference : Reference
  context : List (String × String)
  sketches : List SketchData
deriving DecidableEq, Repr

/-- The serialized form of a SketchPad produced by `to_dict` and consumed
by `from_dict`. -/
structure SketchPadDoc where
  version : String
  metadata : Metadata
  reference : RefDoc
  sketches : List SketchDoc
  context : List (String × String)
deriving DecidableEq, Repr

/-- Embeds `SketchPad.__init__`: the generated uuid and the wall-clock
creation-start timestamp are passed explicitly. -/
def SketchPad.init (freshId : String) (now : String) (reference : Reference)
    (context : Option (List (String × String))) : SketchPad :=
  { version := currentVersion
    id := freshId
    metadata := { id := freshId, creation_start := now, creation_end := none }
    reference := reference
    context := context.getD []
    sketches := [] }

/-- Embeds `SketchPad.get_sketch_by_name` from `core.py`: filter the
sketch collection by name and return the sketch only when the filter kept
exactly one element, else None. -/
def SketchPad.get_sketch_by_name (sp : SketchPad) (name : String) : Option SketchData :=
  let sketches := sp.sketches.filter (fun sk => sk.name == name)
  if sketches.length == 1 then sketches.head? else none

/-- Embeds `SketchPad.get_sketchdata_by_name` from `core.py`: the data of
the found sketch (the sketch object is modelled as its data), else None. -/
def SketchPad.get_sketchdata_by_name (sp : SketchPad) (name : String) : Option SketchData :=
  match sp.get_sketch_by_name name with
  | some sketch => some sketch
  | none => none

/-- The `jaccard` method on similarity-fingerprint data; only that sketch
type carries the method, so the other variants are unreachable for data
looked up under the name MinHash. -/
def SketchData.jaccard : SketchData → SketchData → Option ℚ
  | .minhash a, .minhash b => some (jaccardEstimate a b)
  | _, _ => none

/-- Embeds `SketchPad.minhash_jaccard` from `core.py`: look up the MinHash
data on both sides; if either is absent return None, otherwise delegate to
the sketch-level similarity operation. -/
def SketchPad.minhash_jaccard (self other : SketchPad) : Option ℚ :=
  match self.get_sketchdata_by_name "MinHash", other.get_sketchdata_by_name "MinHash" with
  | some self_minhash, some other_minhash => self_minhash.jaccard other_minhash
  | _, _ => none

/-- Embeds `SketchPad.to_dict` from `core.py`. -/
def SketchPad.to_dict (sp : SketchPad) : SketchPadDoc :=
  { version := sp.version
    metadata := sp.metadata
    reference := sp.reference.to_dict
    sketches := sp.sketches.map SketchData.to_dict
    context := sp.context }

/-- Embeds `SketchPad.from_series` from `core.py`: construct a pad from a
reference, append one sketch per registered sketch type, stamp the
creation-end timestamp and record the column name in the context.  The
generated uuid and the two timestamps are passed explicitly. -/
def SketchPad.from_series (freshId tStart tEnd : String) (series : Series)
    (reference : Reference) : SketchPad :=
  let sp := SketchPad.init freshId tStart reference none
  { sp with
    sketches := all_sketches.map (fun skcls => skcls series)
    metadata := { sp.metadata with creation_end := some tEnd }
    context := [("column_name", series.name)] }

/-- Embeds `SketchPad.from_dict` from `core.py`: assert the stored version
equals the class version, rebuild the reference and each sketch through
the registries, and take identifier, metadata and context from the
document. -/
def SketchPad.from_dict (data : SketchPadDoc) : Except PyError SketchPad :=
  if data.version = currentVersion then do
    let reference ← Reference.from_dict data.reference
    let sketches ← exceptMap SketchBase.from_dict data.sketches
    .ok { version := currentVersion
          id := data.metadata.id
          metadata := data.metadata
          reference := reference
          context := data.context
          sketches := sketches }
  else .error .assertionError

/-- The triple of generated values consumed by one `SketchPad` build: the
uuid and the two wall-clock timestamps. -/
structure FreshTriple where
  freshId : String
  tStart : String
  tEnd : String
deriving DecidableEq, Repr

/-- A positional argument of a Python call to `SketchPad.from_series`. -/
inductive PyArg where
  | series (s : Series)
  | reference (r : Reference)
deriving DecidableEq, Repr

/-- Embeds `SketchPad.from_series` as a Python callable: the definition in
`core.py` has two required positional parameters, `series` and
`reference`, and no defaults, so a call supplying any other argument list
raises TypeError before the body runs. -/
def from_series_pycall (f : FreshTriple) : List PyArg → Except PyError SketchPad
  | [PyArg.series s, PyArg.reference r] =>
      .ok (SketchPad.from_series f.freshId f.tStart f.tEnd s r)
  | _ => .error .typeError

/-- One Python dict assignment on an insertion-ordered association list:
an existing key is replaced in place, a new key is appended. -/
def dictSet (m : List (String × SketchPad)) (k : String) (v : SketchPad) :
    List (String × SketchPad) :=
  if m.any (fun kv => kv.1 == k) then
    m.map (fun kv => if kv.1 == k then (k, v) else kv)
  else m ++ [(k, v)]

/-- The `Portfolio` object of `core.py`: a dict of SketchPads keyed by
their identifiers, modelled as an insertion-ordered association list. -/
structure Pfolio where
  sketchpads : List (String × SketchPad)
deriving DecidableEq, Repr

/-- The empty portfolio, `Portfolio()`. -/
def Pfolio.empty : Pfolio := ⟨[]⟩

/-- Embeds `self.sketchpads.values()`. -/
def Pfolio.values (pf : Pfolio) : List SketchPad :=
  pf.sketchpads.map (fun kv => kv.2)

/-- Embeds `self.sketchpads[i]` read access: Python dict lookup, None
standing for the KeyError case. -/
def Pfolio.lookup (pf : Pfolio) (k : String) : Option SketchPad :=
  (pf.sketchpads.find? (fun kv => kv.1 == k)).map (fun kv => kv.2)

/-- Embeds `Portfolio.add_sketchpad` from `core.py`:
`self.sketchpads[sketchpad.id] = sketchpad`. -/
def Pfolio.add_sketchpad (pf : Pfolio) (sp : SketchPad) : Pfolio :=
  ⟨dictSet pf.sketchpads sp.id sp⟩

/-- Embeds `Portfolio.__init__(sketchpads)`: the dict comprehension
inserts each pad keyed by its id, in list order. -/
def Pfolio.ofList (pads : List SketchPad) : Pfolio :=
  pads.foldl Pfolio.add_sketchpad Pfolio.empty

/-- Representation invariant of a Python dict keyed by pad id: every key
equals the id of its pad and the keys are distinct.  Every portfolio that
the Python code can construct satisfies it. -/
def Pfolio.WF (pf : Pfolio) : Prop :=
  pf.sketchpads.map (fun kv => kv.1) = pf.sketchpads.map (fun kv => kv.2.id) ∧
    (pf.sketchpads.map (fun kv => kv.1)).Nodup

instance (pf : Pfolio) : Decidable pf.WF := by
  unfold Pfolio.WF
  infer_instance

/-- Embeds the loop body of `Portfolio.add_dataframe`: `core.py` line 95
calls `SketchPad.from_series(df[col])` with the series as the only
argument. -/
def add_dataframe_go (gen : Nat → FreshTriple) :
    Nat → Pfolio → List Series → Except PyError Pfolio
  | _, pf, [] => .ok pf
  | i, pf, col :: rest => do
      let sp ← from_series_pycall (gen i) [PyArg.series col]
      add_dataframe_go gen (i + 1) (pf.add_sketchpad sp) rest

/-- Embeds `Portfolio.add_dataframe` from `core.py`: for every column of
the frame, build a SketchPad and add it.  The uuid and timestamps any
successful build would consume are supplied by `gen`. -/
def Pfolio.add_dataframe (gen : Nat → FreshTriple) (pf : Pfolio) (df : DataFrame) :
    Except PyError Pfolio :=
  add_dataframe_go gen 0 pf df.columns

/-- Embeds the `.count()` call on the data looked up under the name
HyperLogLog in `get_approx_pk_sketchpads`: only the distinct-count
estimator has the method; calling it on None (or on data of another
sketch type) raises AttributeError. -/
def hllCount (sp : SketchPad) : Except PyError ℚ :=
  match sp.get_sketchdata_by_name "HyperLogLog" with
  | some (.hyperloglog est) => .ok est
  | some _ => .error .attributeError
  | none => .error .attributeError

/-- Embeds the `int(...)` conversion of the data looked up under the name
Rows in `get_approx_pk_sketchpads`: `int(None)` and `int` of a non-number
raise TypeError. -/
def rowsCount (sp : SketchPad) : Except PyError Nat :=
  match sp.get_sketchdata_by_name "Rows" with
  | some (.rows n) => .ok n
  | some _ => .error .typeError
  | none => .error .typeError

/-- The per-pad test of `get_approx_pk_sketchpads`: the distinct-count
estimate strictly exceeds 0.97 times the row count. -/
def isApproxPk (sp : SketchPad) : Except PyError Bool := do
  let uq ← hllCount sp
  let rows ← rowsCount sp
  .ok (decide ((97 : ℚ) / 100 * (rows : ℚ) < uq))

/-- Boolean form of `isApproxPk` with errors read as false; used only to
phrase theorems about portfolios on which no error occurs. -/
def approxPkB (sp : SketchPad) : Bool :=
  match isApproxPk sp with
  | .ok b => b
  | .error _ => false

/-- Embeds `Portfolio.get_approx_pk_sketchpads` from `core.py`: start from
an empty portfolio and add every pad whose estimated distinct count
strictly exceeds 0.97 times its row count. -/
def Pfolio.get_approx_pk_sketchpads (pf : Pfolio) : Except PyError Pfolio :=
  pf.values.foldlM
    (fun acc sketchpad => do
      let b ← isApproxPk sketchpad
      .ok (if b then acc.add_sketchpad sketchpad else acc))
    Pfolio.empty

/-- One entry of the `scores` heap in `closest_overlap`: the tuple
`(score, sp.id)` where the score is None when a MinHash sketch was
absent. -/
abbrev ScoredId := Option ℚ × String

/-- Python comparison `x < y` on `(score, id)` tuples: tuple comparison
tests the first components for equality and moves on, otherwise compares
them with `<`; comparing None with a number raises TypeError. -/
def pyLtPair (x y : ScoredId) : Except PyError Bool :=
  if x.1 = y.1 then .ok (decide (x.2 < y.2))
  else
    match x.1, y.1 with
    | some a, some b => .ok (decide (a < b))
    | _, _ => .error .typeError

/-- Embeds the `_siftdown` loop of the standard-library `heapq` module
(pure Python): walk the ancestors of `pos`, moving each parent down while
the new item compares less than it, then store the new item.  The first
argument is structural-recursion fuel: the position at least halves on
every step, so fuel equal to the starting position never runs out and the
fuel-exhausted branch is unreachable from `siftdown`. -/
def siftdownGo (newitem : ScoredId) :
    Nat → List ScoredId → Nat → Except PyError (List ScoredId)
  | _, heap, 0 => .ok (heap.set 0 newitem)
  | 0, heap, pos + 1 => .ok (heap.set (pos + 1) newitem)
  | fuel + 1, heap, pos + 1 =>
      let parentpos := pos / 2
      let parent := heap.getD parentpos (none, "")
      match pyLtPair newitem parent with
      | .error e => .error e
      | .ok true => siftdownGo newitem fuel (heap.set (pos + 1) parent) parentpos
      | .ok false => .ok (heap.set (pos + 1) newitem)

/-- The `_siftdown(heap, 0, pos)` entry point. -/
def siftdown (newitem : ScoredId) (heap : List ScoredId) (pos : Nat) :
    Except PyError (List ScoredId) :=
  siftdownGo newitem pos heap pos

/-- Embeds `heapq.heappush`: append the item and sift it toward the
root. -/
def heappush (heap : List ScoredId) (item : ScoredId) : Except PyError (List ScoredId) :=
  siftdown item (heap ++ [item]) heap.length

/-- Python comparison of two raw sort keys, as performed by
`sorted(key=..., reverse=True)` and by `heapq.nlargest`: keys are
compared with `<`, so any comparison involving None raises TypeError,
including None against None.  For present keys the answer is whether the
element already earlier stays before the later one, which it does unless
its key is strictly smaller: equal keys keep input order, making the
sort stable. -/
def pyGeScore (a b : Option ℚ) : Except PyError Bool :=
  match a, b with
  | some x, some y => .ok (decide (y ≤ x))
  | _, _ => .error .typeError

/-- Stable insertion of one element into a descending-sorted list, using
the Python score comparison. -/
def insertDescBy (key : α → Option ℚ) (x : α) : List α → Except PyError (List α)
  | [] => .ok [x]
  | y :: ys => do
      let b ← pyGeScore (key x) (key y)
      if b then .ok (x :: y :: ys)
      else do
        let r ← insertDescBy key x ys
        .ok (y :: r)

/-- Stable descending sort by a score key.  Embeds Python
`sorted(lst, key=..., reverse=True)`; `heapq.nlargest(n, lst, key)` is
documented as equivalent to this sort followed by taking the first `n`
elements.  A list of at most one element is returned without any
comparison; on longer lists every element's key takes part in some
comparison, so an absent (None) key raises TypeError there, exactly as
in CPython.  (The one divergence is `nlargest(0, ...)`, which returns
the empty list without comparing; no caller passes n = 0.) -/
def sortDescBy (key : α → Option ℚ) : List α → Except PyError (List α)
  | [] => .ok []
  | x :: xs => do
      let r ← sortDescBy key xs
      insertDescBy key x r

/-- Embeds `Portfolio.closest_overlap` from `core.py`: heap-push the
`(minhash_jaccard, id)` pair for every pad of the portfolio, take the
`n` largest pairs by score, and resolve the ids back to pads. -/
def Pfolio.closest_overlap (pf : Pfolio) (sketchpad : SketchPad) (n : Nat) :
    Except PyError (List (Option ℚ × SketchPad)) := do
  let scores ← pf.values.foldlM
    (fun heap sp => heappush heap (sketchpad.minhash_jaccard sp, sp.id)) []
  let sorted ← sortDescBy (fun x => x.1) scores
  let top_n := sorted.take n
  exceptMap
    (fun si =>
      match pf.lookup si.2 with
      | some sp => .ok (si.1, sp)
      | none => .error .keyError)
    top_n

/-- The Python default `n=5` of `closest_overlap`. -/
def Pfolio.closest_overlap_default (pf : Pfolio) (sketchpad : SketchPad) :
    Except PyError (List (Option ℚ × SketchPad)) :=
  pf.closest_overlap sketchpad 5

/-- The response of the remote server to one posted sketchpad: status code
and response text.  The network is external, so the responses are a
parameter of the embedding, keyed by the posted pad's id. -/
abbrev Responder := String → Nat × String

/-- The observable outcome of `Portfolio.upload` in the non-batch path:
which pad ids were posted, in order; the error-log lines emitted; and the
value the method returned (`some false` for the explicit `return False`,
`none` for falling off the end). -/
structure UploadTrace where
  attempted : List String
  logs : List String
  returned : Option Bool
deriving DecidableEq, Repr

/-- Embeds the `else` (non-batch) branch of `Portfolio.upload` from
`core.py`: post each sketchpad in turn; on a non-200 response, log two
lines and return False immediately. -/
def upload_nonbatch_go (respond : Responder) : List SketchPad → UploadTrace
  | [] => ⟨[], [], none⟩
  | sp :: rest =>
      let response := respond sp.id
      if response.1 ≠ 200 then
        ⟨[sp.id], ["Failed to upload sketchpad " ++ sp.id, response.2], some false⟩
      else
        let t := upload_nonbatch_go respond rest
        ⟨sp.id :: t.attempted, t.logs, t.returned⟩

/-- Embeds `Portfolio.upload(url, apiKey, batch=False)` in its non-batch
path, iterating `self.sketchpads.values()`. -/
def Pfolio.upload_nonbatch (pf : Pfolio) (respond : Responder) : UploadTrace :=
  upload_nonbatch_go respond pf.values

/-- Embeds the upper bin bound computed by the `cardhisto` route of
`api/main.py`, line 220:
`upper = pow(2, np.ceil(np.log(np.max(cards) / np.log(2))))`, idealized
over the reals with the integer ceiling in the exponent. -/
noncomputable def cardhistoUpper (m : ℝ) : ℝ :=
  (2 : ℝ) ^ (⌈Real.log (m / Real.log 2)⌉ : ℤ)

/-- The formula the specification asserts for the upper bin bound:
`upper = 2 ^ ceil( max(cards) / log(2) )`, stated verbatim from the spec
for comparison with the source. -/
noncomputable def claimedCardUpper (m : ℝ) : ℝ :=
  (2 : ℝ) ^ (⌈m / Real.log 2⌉ : ℤ)

/-- The amended formula for the upper bin bound: the division by log(2)
is applied to max(cards) inside the outer natural logarithm,
`upper = 2 ^ ceil( log( max(cards) / log(2) ) )`. -/
noncomputable def amendedCardUpper (m : ℝ) : ℝ :=
  (2 : ℝ) ^ (⌈Real.log (m / Real.log 2)⌉ : ℤ)

/-- Modelled from the spec: one row of the sketch-pad table owned by the
persistence layer (`api/data.py` is not in the tree): the pad identifier,
the owning username and the full serialized document. -/
structure DbRow where
  id : String
  username : String
  document : SketchPadDoc
deriving DecidableEq, Repr

/-- The persisted state: a list of sketch-pad rows. -/
abbrev Db := List DbRow

/-- Modelled from the spec: `data.get_portfolio(database, username)` loads
every stored row owned by the username, deserializes each document into a
domain SketchPad and assembles a Portfolio from them. -/
def get_portfolio (db : Db) (username : String) : Except PyError Pfolio := do
  let pads ← exceptMap (fun r => SketchPad.from_dict r.document)
    (db.filter (fun r => r.username == username))
  .ok (Pfolio.ofList pads)

/-- Modelled from the spec: `data.get_sketchpads_by_id(database, ids,
username)` yields the domain SketchPads for the given identifiers scoped
to the username; identifiers not owned by the user or not found are
silently skipped. -/
def get_sketchpads_by_id (db : Db) (ids : List String) (username : String) :
    Except PyError (List SketchPad) :=
  exceptMap (fun r => SketchPad.from_dict r.document)
    (ids.filterMap (fun i => db.find? (fun r => r.id == i && r.username == username)))

/-- One candidate match returned by the join-discovery endpoint. -/
structure JoinCandidate where
  score : Option ℚ
  left_sketchpad : SketchPadDoc
  right_sketchpad : SketchPadDoc
deriving DecidableEq, Repr

/-- Embeds the `possibilities` accumulation loop of the
`get_approx_best_joins` route of `api/main.py`: for every requested pad,
compute the closest overlaps against the primary-key portfolio (with the
default n) and append one candidate per returned pair. -/
def possibilitiesOf (pf : Pfolio) (myspads : List SketchPad) :
    Except PyError (List JoinCandidate) :=
  myspads.foldlM
    (fun acc sketch => do
      let high_overlaps ← pf.closest_overlap_default sketch
      .ok (acc ++ high_overlaps.map
        (fun p => { score := p.1
                    left_sketchpad := sketch.to_dict
                    right_sketchpad := p.2.to_dict })))
    []

/-- Embeds the `GET /get_approx_best_joins` route of `api/main.py`: load
the caller's portfolio, filter it to approximate-primary-key pads, load
the requested pads scoped to the caller, accumulate the candidate
matches, sort them by score descending and truncate to the top 5. -/
def get_approx_best_joins (db : Db) (username : String) (sketchpad_ids : List String) :
    Except PyError (List JoinCandidate) := do
  let pf ← get_portfolio db username
  let pf ← pf.get_approx_pk_sketchpads
  let myspads ← get_sketchpads_by_id db sketchpad_ids username
  let possibilities ← possibilitiesOf pf myspads
  let sorted ← sortDescBy (fun c => c.score) possibilities
  .ok (sorted.take 5)

/-- Check that a pad carries distinct-count estimator data under the name
HyperLogLog, so that the `.count()` call of the primary-key filter
succeeds on it. -/
def hasHllData (sp : SketchPad) : Bool :=
  match sp.get_sketchdata_by_name "HyperLogLog" with
  | some (.hyperloglog _) => true
  | _ => false

/-- Check that a pad carries row-counter data under the name Rows, so
that the `int(...)` call of the primary-key filter succeeds on it. -/
def hasRowsData (sp : SketchPad) : Bool :=
  match sp.get_sketchdata_by_name "Rows" with
  | some (.rows _) => true
  | _ => false

/-- Builder for the concrete example pads used in the theorems below. -/
def mkPad (i : String) (sks : List SketchData) : SketchPad :=
  { version := currentVersion
    id := i
    metadata := { id := i, creation_start := "t0", creation_end := some "t1" }
    reference := .pandasDataframeColumn "frame" ("col" ++ i)
    context := [("column_name", "col" ++ i)]
    sketches := sks }

/-- Placeholder pad used as the default of an option projection in
statements; never returned when the lookup succeeds. -/
def dummyPad : SketchPad := mkPad "" []

/-- Example document whose version differs from the current constant. -/
def exBadDoc : SketchPadDoc :=
  { version := "0.0.2"
    metadata := { id := "m1", creation_start := "t0", creation_end := some "t1" }
    reference := .pandasDataframeColumn "frame" "c"
    sketches := [.hyperloglog 2, .minhash [1], .rows 2]
    context := [] }

/-- Example document equal to `exBadDoc` except for the matching version. -/
def exGoodDoc : SketchPadDoc :=
  { exBadDoc with version := "0.0.1" }

/-- Example pad carrying two sketches with the same name MinHash. -/
def exDupPad : SketchPad :=
  mkPad "dup" [.minhash [1], .minhash [2], .rows 2]

/-- Example single-column frame. -/
def exDf : DataFrame := ⟨[⟨"c1", [1, 2]⟩]⟩

/-- Example generator of uuids and timestamps. -/
def exGen : Nat → FreshTriple := fun _ => ⟨"id0", "t0", "t1"⟩

/-- Example query pad with a MinHash sketch. -/
def exC5Query : SketchPad := mkPad "q5" [.hyperloglog 3, .minhash [1, 2, 3], .rows 3]

/-- Example pad without a MinHash sketch. -/
def exC5NoMinhash : SketchPad := mkPad "a5" [.hyperloglog 3, .rows 3]

/-- Example pad with a MinHash sketch. -/
def exC5WithMinhash : SketchPad := mkPad "b5" [.hyperloglog 2, .minhash [1, 2], .rows 2]

/-- Example portfolio mixing a pad without MinHash and a pad with it. -/
def exC5Pf : Pfolio := Pfolio.ofList [exC5NoMinhash, exC5WithMinhash]

/-- Example mixed portfolio for the ranking claim. -/
def exC6Pf : Pfolio :=
  Pfolio.ofList [mkPad "a6" [.rows 4], mkPad "b6" [.minhash [1, 4], .rows 2]]

/-- Example query pad for the ranking claim. -/
def exC6Query : SketchPad := mkPad "q6" [.minhash [1, 2], .rows 2]

/-- Example all-MinHash portfolio for the ranking theorem. -/
def exC6WPf : Pfolio :=
  Pfolio.ofList
    [mkPad "w1" [.hyperloglog 2, .minhash [1, 2], .rows 2],
     mkPad "w2" [.hyperloglog 3, .minhash [2, 3, 4], .rows 3]]

/-- Example query pad for the ranking theorem. -/
def exC6WQuery : SketchPad := mkPad "wq" [.minhash [1, 2], .rows 2]

/-- Example pad whose distinct-count estimate is exactly 97 percent of its
row count. -/
def exC4Pad97 : SketchPad := mkPad "p97" [.hyperloglog 97, .minhash [1], .rows 100]

/-- Example portfolio holding only the exactly-97-percent pad. -/
def exC4Pf : Pfolio := Pfolio.ofList [exC4Pad97]

/-- Example portfolio with one pad above and one below the threshold. -/
def exC4WPf : Pfolio :=
  Pfolio.ofList
    [mkPad "hi" [.hyperloglog 99, .minhash [1], .rows 100],
     mkPad "lo" [.hyperloglog 50, .minhash [2], .rows 100]]

/-- Example two-pad portfolio for the upload claim. -/
def exC9Pf : Pfolio :=
  Pfolio.ofList [mkPad "u1" [.rows 1], mkPad "u2" [.rows 1]]

/-- Example remote server that rejects every upload. -/
def exC9Respond : Responder := fun _ => (500, "server error")

/-- Example stored pad that passes the primary-key filter and carries no
MinHash sketch, so every similarity score against it is absent. -/
def exC8CPk : SketchPad := mkPad "ca" [.hyperloglog 100, .rows 100]

/-- Example requested pad, below the primary-key threshold and without a
MinHash sketch. -/
def exC8CQ1 : SketchPad := mkPad "qa" [.hyperloglog 1, .rows 100]

/-- Second example requested pad of the same shape. -/
def exC8CQ2 : SketchPad := mkPad "qb" [.hyperloglog 1, .rows 100]

/-- Example persisted table on which the join-discovery endpoint crashes:
requesting the two MinHash-less pads yields two candidates with absent
scores, and the final sort compares None with None. -/
def exC8CDb : Db :=
  [⟨"ca", "u", exC8CPk.to_dict⟩, ⟨"qa", "u", exC8CQ1.to_dict⟩,
    ⟨"qb", "u", exC8CQ2.to_dict⟩]

/-- Example stored pad that passes the approximate-primary-key filter. -/
def exDbPadA : SketchPad := mkPad "a8" [.hyperloglog 100, .minhash [1, 2], .rows 100]

/-- Example stored pad that fails the filter and has no MinHash sketch. -/
def exDbPadQ : SketchPad := mkPad "q8" [.hyperloglog 1, .rows 100]

/-- Example persisted table with two rows owned by user u. -/
def exDb : Db :=
  [⟨"a8", "u", exDbPadA.to_dict⟩, ⟨"q8", "u", exDbPadQ.to_dict⟩]

/-! Helper lemmas. -/

theorem ebind_ok {α β : Type} (a : α) (f : α → Except PyError β) :
    (Except.ok a >>= f : Except PyError β) = f a := rfl

theorem ebind_error {α β : Type} (e : PyError) (f : α → Except PyError β) :
    (Except.error e >>= f : Except PyError β) = Except.error e := rfl

theorem ref_from_dict_no_assertion (d : RefDoc) :
    Reference.from_dict d ≠ .error .assertionError := by
  cases d <;> simp [Reference.from_dict]

theorem sketch_from_dict_no_assertion (d : SketchDoc) :
    SketchBase.from_dict d ≠ .error .assertionError := by
  cases d <;> simp [SketchBase.from_dict]

theorem sketch_exceptMap_no_assertion (ds : List SketchDoc) :
    exceptMap SketchBase.from_dict ds ≠ .error .assertionError := by
  induction ds with
  | nil => simp [exceptMap]
  | cons d ds ih =>
      cases hd : SketchBase.from_dict d with
      | error e =>
          have hne := sketch_from_dict_no_assertion d
          rw [hd] at hne
          simpa [exceptMap, hd, ebind_error] using hne
      | ok v =>
          cases hds : exceptMap SketchBase.from_dict ds with
          | error e =>
              rw [hds] at ih
              simpa [exceptMap, hd, hds, ebind_ok, ebind_error] using ih
          | ok vs => simp [exceptMap, hd, hds, ebind_ok]

/-- C2: a document whose version field differs from the constant 0.0.1
always fails the version gate of SketchPad.from_dict with the assertion
error, regardless of its other content; a document whose version equals
0.0.1 never fails with the assertion error, so the version check
passes. -/
theorem from_dict_version_gate (data : SketchPadDoc) :
    (data.version ≠ currentVersion →
      SketchPad.from_dict data = .error .assertionError) ∧
    (data.version = currentVersion →
      SketchPad.from_dict data ≠ .error .assertionError) := by
  constructor
  · intro h
    simp [SketchPad.from_dict, h]
  · intro h
    simp only [SketchPad.from_dict, if_pos h]
    cases hr : Reference.from_dict data.reference with
    | error e =>
        have hne := ref_from_dict_no_assertion data.reference
        rw [hr] at hne
        simpa [ebind_error] using hne
    | ok r =>
        cases hs : exceptMap SketchBase.from_dict data.sketches with
        | error e =>
            have hne := sketch_exceptMap_no_assertion data.sketches
            rw [hs] at hne
            simpa [ebind_ok, ebind_error] using hne
        | ok sks => simp [ebind_ok]

/-- Witness for the version gate at two concrete documents. -/
theorem from_dict_version_gate_witness :
    exBadDoc.version ≠ currentVersion ∧
      SketchPad.from_dict exBadDoc = .error .assertionError ∧
      exGoodDoc.version = currentVersion ∧
      SketchPad.from_dict exGoodDoc ≠ .error .assertionError :=
  ⟨by decide, (from_dict_version_gate exBadDoc).1 (by decide), by decide,
    (from_dict_version_gate exGoodDoc).2 (by decide)⟩

/-- C3: round trip.  A SketchPad built from a column of values by
from_series serializes with to_dict and deserializes with from_dict back
to the very same pad, so identifier, reference, context and sketch
collection are all identical to the original. -/
theorem sketchpad_roundtrip (freshId tStart tEnd : String) (series : Series)
    (reference : Reference) :
    SketchPad.from_dict
        (SketchPad.to_dict (SketchPad.from_series freshId tStart tEnd series reference)) =
      .ok (SketchPad.from_series freshId tStart tEnd series reference) := by
  cases reference <;>
    simp [SketchPad.from_dict, SketchPad.to_dict, SketchPad.from_series, SketchPad.init,
      Reference.to_dict, Reference.from_dict, SketchData.to_dict, SketchBase.from_dict,
      all_sketches, hll_from_series, minhash_from_series, rows_from_series, currentVersion,
      exceptMap, ebind_ok]

/-- C10: get_sketch_by_name returns a sketch exactly when the name filter
keeps exactly one sketch, namely that one; when the filter keeps zero or
at least two sketches, it returns None, and so does
get_sketchdata_by_name. -/
theorem get_sketch_by_name_unique (sp : SketchPad) (name : String) :
    (∀ sk, sp.get_sketch_by_name name = some sk ↔
        sp.sketches.filter (fun s => s.name == name) = [sk]) ∧
    (sp.get_sketch_by_name name = none ↔
        (sp.sketches.filter (fun s => s.name == name)).length ≠ 1) ∧
    (sp.get_sketchdata_by_name name = none ↔
        (sp.sketches.filter (fun s => s.name == name)).length ≠ 1) := by
  have hdata : sp.get_sketchdata_by_name name = sp.get_sketch_by_name name := by
    unfold SketchPad.get_sketchdata_by_name
    cases sp.get_sketch_by_name name <;> simp
  have hX : sp.get_sketch_by_name name =
      (if (sp.sketches.filter (fun s => s.name == name)).length == 1 then
        (sp.sketches.filter (fun s => s.name == name)).head? else none) := rfl
  rw [hdata, hX]
  generalize sp.sketches.filter (fun s => s.name == name) = m
  rcases m with _ | ⟨a, _ | ⟨b, t⟩⟩
  · simp
  · simp
  · refine ⟨fun sk => ?_, ?_, ?_⟩ <;> simp [Nat.succ_ne_zero]

/-- Witness for the unique-name lookup: on a pad with two MinHash
sketches, both lookups return None. -/
theorem get_sketch_by_name_unique_witness :
    exDupPad.get_sketch_by_name "MinHash" = none ∧
      exDupPad.get_sketchdata_by_name "MinHash" = none :=
  ⟨((get_sketch_by_name_unique exDupPad "MinHash").2.1).mpr (by decide),
    ((get_sketch_by_name_unique exDupPad "MinHash").2.2).mpr (by decide)⟩

/-- C1: add_dataframe on any frame with at least one column raises
TypeError: line 95 of core.py calls SketchPad.from_series with the series
as its only argument while the definition requires the reference as a
second positional parameter, so no SketchPad is ever built or added. -/
theorem add_dataframe_missing_reference_raises (gen : Nat → FreshTriple)
    (pf : Pfolio) (df : DataFrame) (h : df.columns ≠ []) :
    Pfolio.add_dataframe gen pf df = .error .typeError := by
  rcases hc : df.columns with _ | ⟨c, rest⟩
  · exact absurd hc h
  · simp only [Pfolio.add_dataframe, hc]
    rfl

/-- Witness for the add_dataframe failure at a one-column frame. -/
theorem add_dataframe_missing_reference_raises_witness :
    exDf.columns ≠ [] ∧
      Pfolio.add_dataframe exGen Pfolio.empty exDf = .error .typeError :=
  ⟨by decide, add_dataframe_missing_reference_raises exGen Pfolio.empty exDf (by decide)⟩

/-- C5: on the evaluated portfolio, minhash_jaccard of the query against
the pad lacking a MinHash sketch returns None rather than failing, but
closest_overlap then heap-pushes that None score and the comparison of
the None tuple with a numeric tuple raises TypeError, so the call fails
instead of completing with a ranking. -/
theorem closest_overlap_none_score_crash :
    exC5Query.minhash_jaccard exC5NoMinhash = none ∧
      (exC5Query.minhash_jaccard exC5WithMinhash).isSome = true ∧
      exC5Pf.closest_overlap exC5Query 5 = .error .typeError := by
  refine ⟨by decide, by decide, by decide⟩

theorem upload_go_spec (respond : Responder) (pads : List SketchPad) :
    (upload_nonbatch_go respond pads).attempted =
        ((pads.takeWhile (fun sp => (respond sp.id).1 == 200)).map (fun sp => sp.id)) ++
          (((pads.dropWhile (fun sp => (respond sp.id).1 == 200)).take 1).map
            (fun sp => sp.id)) ∧
      (pads.dropWhile (fun sp => (respond sp.id).1 == 200) = [] →
        (upload_nonbatch_go respond pads).returned = none ∧
          (upload_nonbatch_go respond pads).logs = []) ∧
      (∀ f rest, pads.dropWhile (fun sp => (respond sp.id).1 == 200) = f :: rest →
        (upload_nonbatch_go respond pads).returned = some false ∧
          (upload_nonbatch_go respond pads).logs =
            ["Failed to upload sketchpad " ++ f.id, (respond f.id).2]) := by
  induction pads with
  | nil => simp [upload_nonbatch_go]
  | cons sp pads ih =>
      cases hpred : ((respond sp.id).1 == 200) with
      | true =>
          have h : (respond sp.id).1 = 200 := by simpa using hpred
          simpa [upload_nonbatch_go, h, hpred, List.takeWhile_cons, List.dropWhile_cons]
            using ih
      | false =>
          have h : ¬(respond sp.id).1 = 200 := by simpa using hpred
          refine ⟨?_, ?_, ?_⟩
          · simp [upload_nonbatch_go, h, hpred, List.takeWhile_cons, List.dropWhile_cons]
          · intro habs
            rw [List.dropWhile_cons, hpred] at habs
            simp at habs
          · intro f rest heq
            rw [List.dropWhile_cons, hpred] at heq
            simp only [Bool.false_eq_true, if_false] at heq
            cases heq
            simp [upload_nonbatch_go, h]

/-- C9 counterexample: on a portfolio of two pads where the server answers
500 to everything, the non-batch upload posts only the first pad and
returns False, so the failure of one upload does cancel the uploads of the
remaining pads, contrary to the claim that every upload is still
attempted. -/
theorem upload_nonbatch_claim_cx :
    exC9Pf.values.map (fun sp => sp.id) = ["u1", "u2"] ∧
      (exC9Pf.upload_nonbatch exC9Respond).attempted = ["u1"] ∧
      (exC9Pf.upload_nonbatch exC9Respond).returned = some false := by
  refine ⟨by decide, by decide, by decide⟩

/-- C9 amended: in the non-batch path, a non-200 response is logged, not
raised, but the method then returns False at once: the pads posted are
exactly those before the first failure plus the failing pad itself, the
remaining pads are skipped; when every response is 200, all pads are
posted, nothing is logged and the method returns None. -/
theorem upload_nonbatch_stops_at_first_failure (pf : Pfolio) (respond : Responder) :
    (pf.upload_nonbatch respond).attempted =
        ((pf.values.takeWhile (fun sp => (respond sp.id).1 == 200)).map (fun sp => sp.id)) ++
          (((pf.values.dropWhile (fun sp => (respond sp.id).1 == 200)).take 1).map
            (fun sp => sp.id)) ∧
      (pf.values.dropWhile (fun sp => (respond sp.id).1 == 200) = [] →
        (pf.upload_nonbatch respond).returned = none ∧
          (pf.upload_nonbatch respond).logs = []) ∧
      (∀ f rest, pf.values.dropWhile (fun sp => (respond sp.id).1 == 200) = f :: rest →
        (pf.upload_nonbatch respond).returned = some false ∧
          (pf.upload_nonbatch respond).logs =
            ["Failed to upload sketchpad " ++ f.id, (respond f.id).2]) :=
  upload_go_spec respond pf.values

/-- Witness for the amended upload behavior: on the all-500 server the
first pad fails, is logged, and the method returns False. -/
theorem upload_nonbatch_stops_at_first_failure_witness :
    exC9Pf.values.dropWhile (fun sp => (exC9Respond sp.id).1 == 200) =
        mkPad "u1" [.rows 1] :: [mkPad "u2" [.rows 1]] ∧
      (exC9Pf.upload_nonbatch exC9Respond).returned = some false ∧
      (exC9Pf.upload_nonbatch exC9Respond).logs =
        ["Failed to upload sketchpad u1", "server error"] := by
  refine ⟨by decide, ?_⟩
  have h := (upload_nonbatch_stops_at_first_failure exC9Pf exC9Respond).2.2
    (mkPad "u1" [.rows 1]) [mkPad "u2" [.rows 1]] (by decide)
  exact ⟨h.1, by rw [h.2]; decide⟩

theorem hllCount_of_hasHllData (sp : SketchPad) (h : hasHllData sp = true) :
    ∃ e, hllCount sp = .ok e := by
  unfold hasHllData at h
  unfold hllCount
  rcases hx : sp.get_sketchdata_by_name "HyperLogLog" with _ | d
  · rw [hx] at h; simp at h
  · rw [hx] at h
    cases d <;> simp_all

theorem rowsCount_of_hasRowsData (sp : SketchPad) (h : hasRowsData sp = true) :
    ∃ n, rowsCount sp = .ok n := by
  unfold hasRowsData at h
  unfold rowsCount
  rcases hx : sp.get_sketchdata_by_name "Rows" with _ | d
  · rw [hx] at h; simp at h
  · rw [hx] at h
    cases d <;> simp_all

theorem isApproxPk_ok (sp : SketchPad) (h1 : hasHllData sp = true)
    (h2 : hasRowsData sp = true) : ∃ b, isApproxPk sp = .ok b := by
  obtain ⟨e, he⟩ := hllCount_of_hasHllData sp h1
  obtain ⟨n, hn⟩ := rowsCount_of_hasRowsData sp h2
  refine ⟨decide ((97 : ℚ) / 100 * (n : ℚ) < e), ?_⟩
  unfold isApproxPk
  rw [he, ebind_ok, hn, ebind_ok]

theorem approx_pk_fold (pads : List SketchPad) (acc : Pfolio)
    (hok : ∀ sp ∈ pads, ∃ b, isApproxPk sp = .ok b)
    (hdisj : ∀ sp ∈ pads, ∀ kv ∈ acc.sketchpads, kv.1 ≠ sp.id)
    (hnd : (pads.map (fun sp => sp.id)).Nodup) :
    pads.foldlM
        (fun acc sketchpad => do
          let b ← isApproxPk sketchpad
          Except.ok (if b then acc.add_sketchpad sketchpad else acc))
        acc =
      .ok ⟨acc.sketchpads ++ (pads.filter approxPkB).map (fun sp => (sp.id, sp))⟩ := by
  induction pads generalizing acc with
  | nil =>
      simp only [List.foldlM_nil, List.filter_nil, List.map_nil, List.append_nil]
      rfl
  | cons sp pads ih =>
      obtain ⟨b, hb⟩ := hok sp (by simp)
      have hfilter : approxPkB sp = b := by
        unfold approxPkB
        rw [hb]
      rw [List.foldlM_cons, hb, ebind_ok]
      have hnd2 : (pads.map (fun sp => sp.id)).Nodup := (List.nodup_cons.mp hnd).2
      cases b with
      | false =>
          rw [if_neg (by simp), ebind_ok]
          rw [ih acc (fun x hx => hok x (by simp [hx]))
            (fun x hx kv hkv => hdisj x (by simp [hx]) kv hkv) hnd2]
          simp [List.filter_cons, hfilter]
      | true =>
          rw [if_pos rfl, ebind_ok]
          have hany : acc.sketchpads.any (fun kv => kv.1 == sp.id) = false := by
            rw [List.any_eq_false]
            intro kv hkv
            simpa using hdisj sp (by simp) kv hkv
          have hadd : (acc.add_sketchpad sp).sketchpads =
              acc.sketchpads ++ [(sp.id, sp)] := by
            unfold Pfolio.add_sketchpad dictSet
            rw [hany]
            simp
          have hid : sp.id ∉ pads.map (fun x => x.id) := (List.nodup_cons.mp hnd).1
          rw [ih (acc.add_sketchpad sp) (fun x hx => hok x (by simp [hx]))
            (fun x hx kv hkv => by
              rw [hadd] at hkv
              rcases List.mem_append.mp hkv with hkv2 | hkv2
              · exact hdisj x (by simp [hx]) kv hkv2
              · rcases List.mem_singleton.mp hkv2 with rfl
                intro hcontra
                exact hid (by
                  simp only [List.mem_map]
                  exact ⟨x, hx, hcontra.symm⟩))
            hnd2]
          rw [hadd]
          simp [List.filter_cons, hfilter]

/-- C4 counterexample: a pad whose estimated distinct count is exactly 97
percent of its row count is excluded by get_approx_pk_sketchpads, because
the code keeps a pad only when the estimate strictly exceeds 0.97 times
the rows, contradicting the claim that such a pad is included. -/
theorem approx_pk_exact_97_excluded :
    hllCount exC4Pad97 = .ok 97 ∧ rowsCount exC4Pad97 = .ok 100 ∧
      (97 : ℚ) / 100 * 100 = 97 ∧
      exC4Pf.get_approx_pk_sketchpads = .ok Pfolio.empty := by
  have h1 : hllCount exC4Pad97 = .ok 97 := by decide
  have h2 : rowsCount exC4Pad97 = .ok 100 := by decide
  have hdec : decide ((97 : ℚ) / 100 * ((100 : Nat) : ℚ) < 97) = false := by
    rw [decide_eq_false_iff_not]
    norm_num
  have hb : isApproxPk exC4Pad97 = .ok false := by
    unfold isApproxPk
    rw [h1, ebind_ok, h2, ebind_ok, hdec]
  have hv : exC4Pf.values = [exC4Pad97] := by decide
  refine ⟨h1, h2, by norm_num, ?_⟩
  unfold Pfolio.get_approx_pk_sketchpads
  rw [hv, List.foldlM_cons, hb, ebind_ok]
  simp [List.foldlM_nil]

/-- C4 amended: on every portfolio whose pads all carry HyperLogLog and
Rows data, get_approx_pk_sketchpads returns exactly the pads whose
distinct-count estimate strictly exceeds 0.97 times their row count; a
pad whose estimate equals exactly 97 percent of its rows is excluded. -/
theorem approx_pk_strict_filter (pf : Pfolio) (hwf : pf.WF)
    (hdata : ∀ sp ∈ pf.values, hasHllData sp = true ∧ hasRowsData sp = true) :
    pf.get_approx_pk_sketchpads =
      .ok ⟨(pf.values.filter approxPkB).map (fun sp => (sp.id, sp))⟩ := by
  have hids : pf.values.map (fun sp => sp.id) = pf.sketchpads.map (fun kv => kv.1) := by
    unfold Pfolio.values
    rw [List.map_map]
    exact hwf.1.symm
  have hnd : (pf.values.map (fun sp => sp.id)).Nodup := by
    rw [hids]
    exact hwf.2
  have hres := approx_pk_fold pf.values Pfolio.empty
    (fun sp hsp => isApproxPk_ok sp (hdata sp hsp).1 (hdata sp hsp).2)
    (fun sp _ kv hkv => by simp [Pfolio.empty] at hkv) hnd
  unfold Pfolio.get_approx_pk_sketchpads
  rw [hres]
  simp [Pfolio.empty]

/-- Witness for the strict primary-key filter on a two-pad portfolio: the
99-percent pad is kept, the 50-percent pad is dropped. -/
theorem approx_pk_strict_filter_witness :
    exC4WPf.WF ∧ (∀ sp ∈ exC4WPf.values, hasHllData sp = true ∧ hasRowsData sp = true) ∧
      exC4WPf.get_approx_pk_sketchpads =
        .ok ⟨(exC4WPf.values.filter approxPkB).map (fun sp => (sp.id, sp))⟩ :=
  ⟨by decide, by decide, approx_pk_strict_filter exC4WPf (by decide) (by decide)⟩

theorem cons_set_swap_perm {α : Type} :
    ∀ (t : List α) (k : Nat) (a x : α), k < t.length →
      (x :: t.set k a).Perm (a :: t.set k x) := by
  intro t
  induction t with
  | nil => intro k a x hk; simp at hk
  | cons c t ih =>
      intro k a x hk
      cases k with
      | zero => simpa using List.Perm.swap a x t
      | succ k =>
          have hk2 : k < t.length := by simpa using hk
          have p1 : (x :: c :: t.set k a).Perm (c :: x :: t.set k a) :=
            List.Perm.swap c x _
          have p2 : (c :: x :: t.set k a).Perm (c :: a :: t.set k x) :=
            (ih k a x hk2).cons c
          have p3 : (c :: a :: t.set k x).Perm (a :: c :: t.set k x) :=
            List.Perm.swap a c _
          exact (p1.trans p2).trans p3

theorem set_set_perm {α : Type} :
    ∀ (l : List α) (i j : Nat) (x d : α), j < i → i < l.length →
      ((l.set i (l.getD j d)).set j x).Perm (l.set i x) := by
  intro l
  induction l with
  | nil => intro i j x d _ hi; simp at hi
  | cons c t ih =>
      intro i j x d hj hi
      cases j with
      | zero =>
          cases i with
          | zero => simp at hj
          | succ i =>
              have hi2 : i < t.length := by simpa using hi
              simpa using cons_set_swap_perm t i c x hi2
      | succ j =>
          cases i with
          | zero => simp at hj
          | succ i =>
              have hj2 : j < i := by omega
              have hi2 : i < t.length := by simpa using hi
              simpa using (ih i j x d hj2 hi2).cons c

theorem siftdownGo_perm (newitem : ScoredId) :
    ∀ (fuel : Nat) (heap : List ScoredId) (pos : Nat) (out : List ScoredId),
      pos < heap.length → siftdownGo newitem fuel heap pos = .ok out →
      out.Perm (heap.set pos newitem) := by
  intro fuel
  induction fuel with
  | zero =>
      intro heap pos out _ hgo
      cases pos <;> · cases hgo; exact List.Perm.refl _
  | succ fuel ih =>
      intro heap pos out hpos hgo
      cases pos with
      | zero => cases hgo; exact List.Perm.refl _
      | succ pos =>
          simp only [siftdownGo] at hgo
          cases hlt : pyLtPair newitem (heap.getD (pos / 2) (none, "")) with
          | error e => rw [hlt] at hgo; cases hgo
          | ok b =>
              rw [hlt] at hgo
              cases b with
              | false => cases hgo; exact List.Perm.refl _
              | true =>
                  have hhalf : pos / 2 < (heap.set (pos + 1)
                      (heap.getD (pos / 2) (none, ""))).length := by
                    simp only [List.length_set]
                    omega
                  have hrec := ih _ _ _ hhalf hgo
                  exact hrec.trans
                    (set_set_perm heap (pos + 1) (pos / 2) newitem (none, "")
                      (by omega) hpos)

theorem set_append_last {α : Type} :
    ∀ (heap : List α) (item : α), (heap ++ [item]).set heap.length item = heap ++ [item] := by
  intro heap item
  induction heap with
  | nil => rfl
  | cons c t ih => simp [ih]

theorem heappush_perm (heap : List ScoredId) (item : ScoredId) (out : List ScoredId)
    (h : heappush heap item = .ok out) : out.Perm (heap ++ [item]) := by
  unfold heappush siftdown at h
  have hpos : heap.length < (heap ++ [item]).length := by simp
  have hperm := siftdownGo_perm item heap.length (heap ++ [item]) heap.length out hpos h
  rwa [set_append_last] at hperm

theorem heap_fold_perm (f : SketchPad → ScoredId) :
    ∀ (pads : List SketchPad) (acc out : List ScoredId),
      pads.foldlM (fun heap sp => heappush heap (f sp)) acc = .ok out →
      out.Perm (acc ++ pads.map f) := by
  intro pads
  induction pads with
  | nil =>
      intro acc out h
      cases h
      simp
  | cons sp pads ih =>
      intro acc out h
      rw [List.foldlM_cons] at h
      cases hh : heappush acc (f sp) with
      | error e => rw [hh] at h; cases h
      | ok h1 =>
          rw [hh, ebind_ok] at h
          have h2 := ih h1 out h
          have h3 := heappush_perm acc (f sp) h1 hh
          have h4 : (h1 ++ pads.map f).Perm ((acc ++ [f sp]) ++ pads.map f) :=
            h3.append_right _
          have h5 : (acc ++ [f sp]) ++ pads.map f = acc ++ (sp :: pads).map f := by
            simp
          exact (h2.trans h4).trans (h5 ▸ List.Perm.refl _)

theorem pyLtPair_some (x y : ScoredId) (hx : x.1.isSome) (hy : y.1.isSome) :
    ∃ b, pyLtPair x y = .ok b := by
  by_cases heq : x.1 = y.1
  · refine ⟨decide (x.2 < y.2), ?_⟩
    unfold pyLtPair
    rw [if_pos heq]
  · obtain ⟨a, ha⟩ := Option.isSome_iff_exists.mp hx
    obtain ⟨b, hb⟩ := Option.isSome_iff_exists.mp hy
    refine ⟨decide (a < b), ?_⟩
    unfold pyLtPair
    rw [if_neg heq, ha, hb]

theorem siftdownGo_allsome (newitem : ScoredId) :
    ∀ (fuel : Nat) (heap : List ScoredId) (pos : Nat),
      pos < heap.length → newitem.1.isSome → (∀ p ∈ heap, p.1.isSome) →
      ∃ out, siftdownGo newitem fuel heap pos = .ok out := by
  intro fuel
  induction fuel with
  | zero =>
      intro heap pos _ _ _
      cases pos <;> exact ⟨_, rfl⟩
  | succ fuel ih =>
      intro heap pos hpos hitem hall
      cases pos with
      | zero => exact ⟨_, rfl⟩
      | succ pos =>
          have hhalf : pos / 2 < heap.length := by omega
          have hparent : (heap.getD (pos / 2) (none, "")).1.isSome := by
            rw [List.getD_eq_getElem heap (none, "") hhalf]
            exact hall _ (List.getElem_mem hhalf)
          obtain ⟨b, hb⟩ := pyLtPair_some newitem _ hitem hparent
          cases b with
          | false => exact ⟨_, by simp only [siftdownGo]; rw [hb]⟩
          | true =>
              have hall2 : ∀ p ∈ heap.set (pos + 1) (heap.getD (pos / 2) (none, "")),
                  p.1.isSome := by
                intro p hp
                rcases List.mem_or_eq_of_mem_set hp with hmem | rfl
                · exact hall p hmem
                · exact hparent
              obtain ⟨out, hout⟩ := ih (heap.set (pos + 1) (heap.getD (pos / 2) (none, "")))
                (pos / 2) (by simpa using hhalf) hitem hall2
              exact ⟨out, by simp only [siftdownGo]; rw [hb]; exact hout⟩

theorem heappush_allsome (heap : List ScoredId) (item : ScoredId)
    (hall : ∀ p ∈ heap, p.1.isSome) (hitem : item.1.isSome) :
    ∃ out, heappush heap item = .ok out ∧ ∀ p ∈ out, p.1.isSome := by
  have hall2 : ∀ p ∈ heap ++ [item], p.1.isSome := by
    intro p hp
    rcases List.mem_append.mp hp with hmem | hmem
    · exact hall p hmem
    · rcases List.mem_singleton.mp hmem with rfl
      exact hitem
  obtain ⟨out, hout⟩ := siftdownGo_allsome item heap.length (heap ++ [item]) heap.length
    (by simp) hitem hall2
  refine ⟨out, hout, ?_⟩
  intro p hp
  have hperm := heappush_perm heap item out hout
  exact hall2 p (hperm.mem_iff.mp hp)

theorem heap_fold_allsome (f : SketchPad → ScoredId) :
    ∀ (pads : List SketchPad) (acc : List ScoredId),
      (∀ p ∈ acc, p.1.isSome) → (∀ sp ∈ pads, (f sp).1.isSome) →
      ∃ out, pads.foldlM (fun heap sp => heappush heap (f sp)) acc = .ok out := by
  intro pads
  induction pads with
  | nil => intro acc _ _; exact ⟨acc, rfl⟩
  | cons sp pads ih =>
      intro acc hacc hpads
      obtain ⟨h1, hh1, hall1⟩ := heappush_allsome acc (f sp) hacc (hpads sp (by simp))
      obtain ⟨out, hout⟩ := ih h1 hall1 (fun x hx => hpads x (by simp [hx]))
      exact ⟨out, by rw [List.foldlM_cons, hh1, ebind_ok]; exact hout⟩

theorem pyGeScore_some (a b : Option ℚ) (ha : a.isSome) (hb : b.isSome) :
    ∃ c, pyGeScore a b = .ok c := by
  obtain ⟨x, hx⟩ := Option.isSome_iff_exists.mp ha
  obtain ⟨y, hy⟩ := Option.isSome_iff_exists.mp hb
  refine ⟨decide (y ≤ x), ?_⟩
  rw [hx, hy]
  rfl

theorem pyGeScore_total (a b : Option ℚ) (h : pyGeScore a b = .ok false) :
    pyGeScore b a = .ok true := by
  unfold pyGeScore at h ⊢
  cases a with
  | none => cases b <;> cases h
  | some x =>
      cases b with
      | none => cases h
      | some y =>
          have hxy : ¬y ≤ x := by
            have := Except.ok.inj h
            simpa using this
          have hle : x ≤ y := le_of_lt (not_le.mp hxy)
          simp [hle]

theorem insertDescBy_perm {α : Type} (key : α → Option ℚ) (x : α) :
    ∀ (l out : List α), insertDescBy key x l = .ok out → out.Perm (x :: l) := by
  intro l
  induction l with
  | nil =>
      intro out h
      cases h
      exact List.Perm.refl _
  | cons y ys ih =>
      intro out h
      simp only [insertDescBy] at h
      cases hb : pyGeScore (key x) (key y) with
      | error e => rw [hb] at h; cases h
      | ok b =>
          rw [hb, ebind_ok] at h
          cases b with
          | true =>
              cases h
              exact List.Perm.refl _
          | false =>
              cases hr : insertDescBy key x ys with
              | error e => rw [hr] at h; cases h
              | ok r =>
                  rw [hr, ebind_ok] at h
                  cases h
                  have h1 := (ih r hr).cons y
                  exact h1.trans (List.Perm.swap x y ys)

theorem insertDescBy_chain {α : Type} (key : α → Option ℚ) (x : α) :
    ∀ (l out : List α),
      List.Chain' (fun a b => pyGeScore (key a) (key b) = .ok true) l →
      insertDescBy key x l = .ok out →
      List.Chain' (fun a b => pyGeScore (key a) (key b) = .ok true) out ∧
        (∀ z, out.head? = some z → z = x ∨ l.head? = some z) := by
  intro l
  induction l with
  | nil =>
      intro out _ h
      cases h
      refine ⟨List.chain'_singleton x, ?_⟩
      intro z hz
      cases hz
      exact Or.inl rfl
  | cons y ys ih =>
      intro out hc h
      simp only [insertDescBy] at h
      cases hb : pyGeScore (key x) (key y) with
      | error e => rw [hb] at h; cases h
      | ok b =>
          rw [hb, ebind_ok] at h
          cases b with
          | true =>
              cases h
              refine ⟨List.chain'_cons.mpr ⟨hb, hc⟩, ?_⟩
              intro z hz
              cases hz
              exact Or.inl rfl
          | false =>
              cases hr : insertDescBy key x ys with
              | error e => rw [hr] at h; cases h
              | ok r =>
                  rw [hr, ebind_ok] at h
                  cases h
                  obtain ⟨hcr, hhead⟩ := ih r (List.chain'_cons'.mp hc).2 hr
                  refine ⟨List.chain'_cons'.mpr ⟨?_, hcr⟩, ?_⟩
                  · intro z hz
                    rcases hhead z hz with rfl | hz2
                    · exact pyGeScore_total _ _ hb
                    · exact (List.chain'_cons'.mp hc).1 z hz2
                  · intro z hz
                    cases hz
                    exact Or.inr rfl

theorem sortDescBy_ok {α : Type} (key : α → Option ℚ) :
    ∀ (l out : List α), sortDescBy key l = .ok out →
      out.Perm l ∧ List.Chain' (fun a b => pyGeScore (key a) (key b) = .ok true) out := by
  intro l
  induction l with
  | nil =>
      intro out h
      cases h
      exact ⟨List.Perm.refl _, List.chain'_nil⟩
  | cons x xs ih =>
      intro out h
      simp only [sortDescBy] at h
      cases hr : sortDescBy key xs with
      | error e => rw [hr] at h; cases h
      | ok r =>
          rw [hr, ebind_ok] at h
          obtain ⟨hperm, hchain⟩ := ih r hr
          refine ⟨?_, (insertDescBy_chain key x r out hchain h).1⟩
          exact (insertDescBy_perm key x r out h).trans (hperm.cons x)

theorem insertDescBy_allsome {α : Type} (key : α → Option ℚ) (x : α)
    (hx : (key x).isSome) :
    ∀ (l : List α), (∀ a ∈ l, (key a).isSome) → ∃ out, insertDescBy key x l = .ok out := by
  intro l
  induction l with
  | nil => exact fun _ => ⟨[x], rfl⟩
  | cons y ys ih =>
      intro hall
      obtain ⟨c, hc⟩ := pyGeScore_some (key x) (key y) hx (hall y (by simp))
      cases c with
      | true =>
          exact ⟨x :: y :: ys, by simp only [insertDescBy]; rw [hc, ebind_ok]; simp⟩
      | false =>
          obtain ⟨r, hr⟩ := ih (fun a ha => hall a (by simp [ha]))
          exact ⟨y :: r, by
            simp only [insertDescBy]
            rw [hc, ebind_ok, hr, ebind_ok]
            simp⟩

theorem sortDescBy_allsome {α : Type} (key : α → Option ℚ) :
    ∀ (l : List α), (∀ a ∈ l, (key a).isSome) → ∃ out, sortDescBy key l = .ok out := by
  intro l
  induction l with
  | nil => exact fun _ => ⟨[], rfl⟩
  | cons x xs ih =>
      intro hall
      obtain ⟨r, hr⟩ := ih (fun a ha => hall a (by simp [ha]))
      have hsome : ∀ a ∈ r, (key a).isSome := by
        intro a ha
        have hmem := ((sortDescBy_ok key xs r hr).1.mem_iff).mp ha
        exact hall a (by simp [hmem])
      obtain ⟨out, hout⟩ := insertDescBy_allsome key x (hall x (by simp)) r hsome
      exact ⟨out, by simp only [sortDescBy]; rw [hr, ebind_ok, hout]⟩

theorem find_list_of_keys (l : List (String × SketchPad)) :
    ∀ sp : SketchPad,
      l.map (fun kv => kv.1) = l.map (fun kv => kv.2.id) →
      (l.map (fun kv => kv.1)).Nodup →
      sp ∈ l.map (fun kv => kv.2) →
      (l.find? (fun kv => kv.1 == sp.id)).map (fun kv => kv.2) = some sp := by
  induction l with
  | nil => intro sp _ _ hsp; simp at hsp
  | cons kv rest ih =>
      intro sp hids hnd hsp
      simp only [List.map_cons] at hids hnd hsp
      obtain ⟨h1, h2⟩ := List.cons.inj hids
      obtain ⟨hhead, htail⟩ := List.nodup_cons.mp hnd
      rcases List.mem_cons.mp hsp with heq | hmem
      · rw [List.find?_cons]
        have hbeq : (kv.1 == sp.id) = true := by simp [h1, heq]
        rw [hbeq]
        simp [heq]
      · have hne : ¬kv.1 = sp.id := by
          intro hcontra
          have hin : sp.id ∈ rest.map (fun kv => kv.2.id) :=
            List.mem_map.mpr ⟨_, List.mem_map.mp hmem |>.choose_spec.1, by
              have := (List.mem_map.mp hmem).choose_spec.2
              rw [this]⟩
          rw [← h2] at hin
          exact hhead (hcontra ▸ hin)
        rw [List.find?_cons]
        have hbeq : (kv.1 == sp.id) = false := by simpa using hne
        rw [hbeq]
        exact ih sp h2 htail hmem

theorem lookup_of_wf (pf : Pfolio) (hwf : pf.WF) :
    ∀ sp ∈ pf.values, pf.lookup sp.id = some sp := by
  intro sp hsp
  exact find_list_of_keys pf.sketchpads sp hwf.1 hwf.2 hsp

theorem exceptMap_resolve (pf : Pfolio) :
    ∀ (l : List ScoredId), (∀ p ∈ l, (pf.lookup p.2).isSome) →
      exceptMap
          (fun si =>
            match pf.lookup si.2 with
            | some sp => .ok (si.1, sp)
            | none => .error .keyError)
          l =
        .ok (l.map (fun si => (si.1, (pf.lookup si.2).getD dummyPad))) := by
  intro l
  induction l with
  | nil => intro _; rfl
  | cons p ps ih =>
      intro hall
      obtain ⟨sp, hsp⟩ := Option.isSome_iff_exists.mp (hall p (by simp))
      have hrest := ih (fun q hq => hall q (by simp [hq]))
      simp only [exceptMap, List.map_cons]
      rw [hsp, hrest]
      simp [ebind_ok]

/-- C6 counterexample: on this two-pad portfolio, whose first pad lacks
the MinHash sketch while the second carries one, closest_overlap raises
TypeError instead of returning the top-n (score, SketchPad) pairs, so
the ranking description does not hold for every portfolio and query. -/
theorem closest_overlap_claim_cx :
    exC6Pf.closest_overlap exC6Query 5 = .error .typeError := by decide

/-- C6 amended: provided the query yields a MinHash score against every
pad of the portfolio, closest_overlap computes minhash_jaccard between
the query and every SketchPad and ranks them: there is a ranking, a
permutation of the (score, pad) pairs over the whole portfolio and sorted
by score descending, such that closest_overlap with any n returns exactly
its first n entries, with default n = 5; hence for n1 of at most n2 the
n1-result is the first n1 entries of the n2-result. -/
theorem closest_overlap_ranking (pf : Pfolio) (q : SketchPad) (hwf : pf.WF)
    (hall : ∀ sp ∈ pf.values, (q.minhash_jaccard sp).isSome = true) :
    ∃ ranking : List (Option ℚ × SketchPad),
      ranking.Perm (pf.values.map (fun sp => (q.minhash_jaccard sp, sp))) ∧
      List.Chain' (fun x y => pyGeScore x.1 y.1 = .ok true) ranking ∧
      (∀ n, pf.closest_overlap q n = .ok (ranking.take n)) ∧
      pf.closest_overlap_default q = .ok (ranking.take 5) ∧
      (∀ n1 n2, n1 ≤ n2 → ranking.take n1 = (ranking.take n2).take n1) := by
  have hfsome : ∀ sp ∈ pf.values,
      ((fun sp => (q.minhash_jaccard sp, sp.id)) sp).1.isSome = true := by
    intro sp hsp
    simpa using hall sp hsp
  obtain ⟨scores, hscores⟩ :=
    heap_fold_allsome (fun sp => (q.minhash_jaccard sp, sp.id)) pf.values []
      (by simp) hfsome
  have hscperm :
      scores.Perm (pf.values.map (fun sp => (q.minhash_jaccard sp, sp.id))) := by
    simpa using
      heap_fold_perm (fun sp => (q.minhash_jaccard sp, sp.id)) pf.values [] scores hscores
  have hscsome : ∀ p ∈ scores, p.1.isSome = true := by
    intro p hp
    obtain ⟨sp, hsp, rfl⟩ := List.mem_map.mp (hscperm.mem_iff.mp hp)
    exact hall sp hsp
  obtain ⟨sorted, hsorted⟩ :=
    sortDescBy_allsome (fun x : ScoredId => x.1) scores hscsome
  obtain ⟨hsperm, hschain⟩ := sortDescBy_ok (fun x : ScoredId => x.1) scores sorted hsorted
  have hmemlookup : ∀ p ∈ sorted, (pf.lookup p.2).isSome = true := by
    intro p hp
    obtain ⟨sp, hsp, rfl⟩ :=
      List.mem_map.mp (hscperm.mem_iff.mp (hsperm.mem_iff.mp hp))
    rw [lookup_of_wf pf hwf sp hsp]
    rfl
  have htake : ∀ n, pf.closest_overlap q n =
      .ok ((sorted.map
        (fun si => (si.1, (pf.lookup si.2).getD dummyPad))).take n) := by
    intro n
    have hscores2 : pf.values.foldlM
        (fun heap sp => heappush heap (q.minhash_jaccard sp, sp.id)) [] =
          .ok scores := hscores
    unfold Pfolio.closest_overlap
    rw [hscores2, ebind_ok, hsorted, ebind_ok]
    rw [exceptMap_resolve pf (sorted.take n)
      (fun p hp => hmemlookup p (List.mem_of_mem_take hp))]
    rw [List.map_take]
  refine ⟨sorted.map (fun si => (si.1, (pf.lookup si.2).getD dummyPad)),
    ?_, ?_, htake, ?_, ?_⟩
  · have hp1 := (hsperm.trans hscperm).map
      (fun si : ScoredId => (si.1, (pf.lookup si.2).getD dummyPad))
    have heqmap :
        (pf.values.map (fun sp => (q.minhash_jaccard sp, sp.id))).map
            (fun si => (si.1, (pf.lookup si.2).getD dummyPad)) =
          pf.values.map (fun sp => (q.minhash_jaccard sp, sp)) := by
      rw [List.map_map]
      apply List.map_congr_left
      intro sp hsp
      simp only [Function.comp]
      rw [lookup_of_wf pf hwf sp hsp]
      rfl
    rw [heqmap] at hp1
    exact hp1
  · exact (List.chain'_map
      (fun si : ScoredId => (si.1, (pf.lookup si.2).getD dummyPad))).mpr hschain
  · unfold Pfolio.closest_overlap_default
    exact htake 5
  · intro n1 n2 h
    rw [List.take_take, Nat.min_eq_left h]

/-- Witness for the ranking theorem at a two-pad all-MinHash portfolio. -/
theorem closest_overlap_ranking_witness :
    exC6WPf.WF ∧
      (∀ sp ∈ exC6WPf.values, (exC6WQuery.minhash_jaccard sp).isSome = true) ∧
      (∃ ranking : List (Option ℚ × SketchPad),
        ranking.Perm (exC6WPf.values.map
          (fun sp => (exC6WQuery.minhash_jaccard sp, sp))) ∧
        List.Chain' (fun x y => pyGeScore x.1 y.1 = .ok true) ranking ∧
        (∀ n, exC6WPf.closest_overlap exC6WQuery n = .ok (ranking.take n)) ∧
        exC6WPf.closest_overlap_default exC6WQuery = .ok (ranking.take 5) ∧
        (∀ n1 n2, n1 ≤ n2 → ranking.take n1 = (ranking.take n2).take n1)) :=
  ⟨by decide, by decide,
    closest_overlap_ranking exC6WPf exC6WQuery (by decide) (by decide)⟩

theorem chain_take {α : Type} (R : α → α → Prop) :
    ∀ (l : List α) (n : Nat), List.Chain' R l → List.Chain' R (l.take n) := by
  intro l
  induction l with
  | nil => intro n _; simp
  | cons x xs ih =>
      intro n hc
      cases n with
      | zero => simp
      | succ n =>
          rw [List.take_succ_cons]
          apply List.chain'_cons'.mpr
          refine ⟨?_, ih n (List.chain'_cons'.mp hc).2⟩
          intro y hy
          apply (List.chain'_cons'.mp hc).1
          cases xs with
          | nil => simp at hy
          | cons z zs =>
              cases n with
              | zero => simp at hy
              | succ n =>
                  rw [List.take_succ_cons] at hy
                  simpa using hy

/-- C8 amended: whenever the join-discovery endpoint completes without
raising, its result was produced by loading the caller's portfolio,
filtering it to approximate-primary-key pads, loading the requested pads
scoped to the caller, flattening the closest-overlap candidates of every
requested pad, and sorting them by score descending: the response is the
first five entries of a sorted permutation of all candidates, hence
holds at most 5 entries in descending score order.  (A request whose
candidate scores include absent MinHash results can instead raise
TypeError in the score sorting.) -/
theorem get_approx_best_joins_spec (db : Db) (u : String) (ids : List String)
    (res : List JoinCandidate)
    (h : get_approx_best_joins db u ids = .ok res) :
    res.length ≤ 5 ∧
      List.Chain' (fun x y => pyGeScore x.score y.score = .ok true) res ∧
      ∃ pf pk myspads poss sorted,
        get_portfolio db u = .ok pf ∧
        pf.get_approx_pk_sketchpads = .ok pk ∧
        get_sketchpads_by_id db ids u = .ok myspads ∧
        possibilitiesOf pk myspads = .ok poss ∧
        sortDescBy (fun c => c.score) poss = .ok sorted ∧
        sorted.Perm poss ∧ res = sorted.take 5 := by
  unfold get_approx_best_joins at h
  cases h1 : get_portfolio db u with
  | error e => rw [h1, ebind_error] at h; cases h
  | ok pf =>
      rw [h1, ebind_ok] at h
      cases h2 : pf.get_approx_pk_sketchpads with
      | error e => rw [h2, ebind_error] at h; cases h
      | ok pk =>
          rw [h2, ebind_ok] at h
          cases h3 : get_sketchpads_by_id db ids u with
          | error e => rw [h3, ebind_error] at h; cases h
          | ok myspads =>
              rw [h3, ebind_ok] at h
              cases h4 : possibilitiesOf pk myspads with
              | error e => rw [h4, ebind_error] at h; cases h
              | ok poss =>
                  rw [h4, ebind_ok] at h
                  cases h5 : sortDescBy (fun c => c.score) poss with
                  | error e => rw [h5, ebind_error] at h; cases h
                  | ok sorted =>
                      rw [h5, ebind_ok] at h
                      have hres : res = sorted.take 5 := (Except.ok.inj h).symm
                      obtain ⟨hperm, hchain⟩ :=
                        sortDescBy_ok (fun c : JoinCandidate => c.score) poss sorted h5
                      subst hres
                      refine ⟨List.length_take_le 5 sorted, ?_, pf, pk, myspads,
                        poss, sorted, rfl, h2, rfl, h4, h5, hperm, rfl⟩
                      exact chain_take _ sorted 5 hchain

/-- Witness for the join-discovery endpoint on a concrete two-row store:
the call succeeds with one candidate, and the theorem applies to it. -/
theorem get_approx_best_joins_spec_witness :
    get_approx_best_joins exDb "u" ["q8"] =
        .ok [⟨none, exDbPadQ.to_dict, exDbPadA.to_dict⟩] ∧
      ([(⟨none, exDbPadQ.to_dict, exDbPadA.to_dict⟩ : JoinCandidate)]).length ≤ 5 := by
  have hA : isApproxPk exDbPadA = .ok true := by
    have h1 : hllCount exDbPadA = .ok 100 := by decide
    have h2 : rowsCount exDbPadA = .ok 100 := by decide
    have hdec : decide ((97 : ℚ) / 100 * ((100 : Nat) : ℚ) < 100) = true := by
      rw [decide_eq_true_eq]
      norm_num
    unfold isApproxPk
    rw [h1, ebind_ok, h2, ebind_ok, hdec]
  have hQ : isApproxPk exDbPadQ = .ok false := by
    have h1 : hllCount exDbPadQ = .ok 1 := by decide
    have h2 : rowsCount exDbPadQ = .ok 100 := by decide
    have hdec : decide ((97 : ℚ) / 100 * ((100 : Nat) : ℚ) < 1) = false := by
      rw [decide_eq_false_iff_not]
      norm_num
    unfold isApproxPk
    rw [h1, ebind_ok, h2, ebind_ok, hdec]
  have hpf : get_portfolio exDb "u" = .ok (Pfolio.ofList [exDbPadA, exDbPadQ]) := by
    decide
  have hv : (Pfolio.ofList [exDbPadA, exDbPadQ]).values = [exDbPadA, exDbPadQ] := by
    decide
  have hpk : (Pfolio.ofList [exDbPadA, exDbPadQ]).get_approx_pk_sketchpads =
      .ok (Pfolio.ofList [exDbPadA]) := by
    unfold Pfolio.get_approx_pk_sketchpads
    rw [hv, List.foldlM_cons, hA, ebind_ok]
    rw [if_pos rfl, ebind_ok, List.foldlM_cons, hQ, ebind_ok]
    rw [if_neg (by simp), ebind_ok, List.foldlM_nil]
    have : Pfolio.empty.add_sketchpad exDbPadA = Pfolio.ofList [exDbPadA] := by decide
    rw [this]
    rfl
  have hsp2 : get_sketchpads_by_id exDb ["q8"] "u" = .ok [exDbPadQ] := by decide
  have hposs : possibilitiesOf (Pfolio.ofList [exDbPadA]) [exDbPadQ] =
      .ok [⟨none, exDbPadQ.to_dict, exDbPadA.to_dict⟩] := by decide
  have hsort : sortDescBy (fun c : JoinCandidate => c.score)
      [⟨none, exDbPadQ.to_dict, exDbPadA.to_dict⟩] =
      .ok [⟨none, exDbPadQ.to_dict, exDbPadA.to_dict⟩] := by decide
  have hcall : get_approx_best_joins exDb "u" ["q8"] =
      .ok [⟨none, exDbPadQ.to_dict, exDbPadA.to_dict⟩] := by
    unfold get_approx_best_joins
    rw [hpf, ebind_ok, hpk, ebind_ok, hsp2, ebind_ok, hposs, ebind_ok, hsort, ebind_ok]
    rfl
  exact ⟨hcall,
    (get_approx_best_joins_spec exDb "u" ["q8"]
      [⟨none, exDbPadQ.to_dict, exDbPadA.to_dict⟩] hcall).1⟩

/-- C8 counterexample: requesting two pads that lack the MinHash sketch
against a store whose only approximate-primary-key pad also produces
absent scores makes the endpoint raise TypeError in the final
score-descending sort (None compared with None), instead of returning
the sorted candidate list; so the endpoint does not return a sorted
truncated candidate list for every authenticated request. -/
theorem get_approx_best_joins_claim_cx :
    get_approx_best_joins exC8CDb "u" ["qa", "qb"] = .error .typeError := by
  have hdecP : decide ((97 : ℚ) / 100 * ((100 : Nat) : ℚ) < 100) = true := by
    rw [decide_eq_true_eq]
    norm_num
  have hdecQ : decide ((97 : ℚ) / 100 * ((100 : Nat) : ℚ) < 1) = false := by
    rw [decide_eq_false_iff_not]
    norm_num
  have hP : isApproxPk exC8CPk = .ok true := by
    have h1 : hllCount exC8CPk = .ok 100 := by decide
    have h2 : rowsCount exC8CPk = .ok 100 := by decide
    unfold isApproxPk
    rw [h1, ebind_ok, h2, ebind_ok, hdecP]
  have hQ1 : isApproxPk exC8CQ1 = .ok false := by
    have h1 : hllCount exC8CQ1 = .ok 1 := by decide
    have h2 : rowsCount exC8CQ1 = .ok 100 := by decide
    unfold isApproxPk
    rw [h1, ebind_ok, h2, ebind_ok, hdecQ]
  have hQ2 : isApproxPk exC8CQ2 = .ok false := by
    have h1 : hllCount exC8CQ2 = .ok 1 := by decide
    have h2 : rowsCount exC8CQ2 = .ok 100 := by decide
    unfold isApproxPk
    rw [h1, ebind_ok, h2, ebind_ok, hdecQ]
  have hpf : get_portfolio exC8CDb "u" =
      .ok (Pfolio.ofList [exC8CPk, exC8CQ1, exC8CQ2]) := by decide
  have hv : (Pfolio.ofList [exC8CPk, exC8CQ1, exC8CQ2]).values =
      [exC8CPk, exC8CQ1, exC8CQ2] := by decide
  have hpk : (Pfolio.ofList [exC8CPk, exC8CQ1, exC8CQ2]).get_approx_pk_sketchpads =
      .ok (Pfolio.ofList [exC8CPk]) := by
    unfold Pfolio.get_approx_pk_sketchpads
    rw [hv, List.foldlM_cons, hP, ebind_ok, if_pos rfl, ebind_ok,
      List.foldlM_cons, hQ1, ebind_ok, if_neg (by simp), ebind_ok,
      List.foldlM_cons, hQ2, ebind_ok, if_neg (by simp), ebind_ok, List.foldlM_nil]
    have hone : Pfolio.empty.add_sketchpad exC8CPk = Pfolio.ofList [exC8CPk] := by
      decide
    rw [hone]
    rfl
  have hsp : get_sketchpads_by_id exC8CDb ["qa", "qb"] "u" =
      .ok [exC8CQ1, exC8CQ2] := by decide
  have hposs : possibilitiesOf (Pfolio.ofList [exC8CPk]) [exC8CQ1, exC8CQ2] =
      .ok [⟨none, exC8CQ1.to_dict, exC8CPk.to_dict⟩,
        ⟨none, exC8CQ2.to_dict, exC8CPk.to_dict⟩] := by decide
  have hsort : sortDescBy (fun c : JoinCandidate => c.score)
      [⟨none, exC8CQ1.to_dict, exC8CPk.to_dict⟩,
        ⟨none, exC8CQ2.to_dict, exC8CPk.to_dict⟩] =
      .error .typeError := by decide
  unfold get_approx_best_joins
  rw [hpf, ebind_ok, hpk, ebind_ok, hsp, ebind_ok, hposs, ebind_ok, hsort, ebind_error]

/-- C7 counterexample: at max(cards) = 4 the source formula yields 4 while
the formula stated by the claim yields 64, so the claim misstates the
implemented upper bin bound: the source wraps the quotient in an outer
natural logarithm, the claim omits it. -/
theorem cardhisto_upper_claim_cx :
    cardhistoUpper 4 = 4 ∧ claimedCardUpper 4 = 64 ∧
      cardhistoUpper 4 ≠ claimedCardUpper 4 := by
  have hl2pos : (0 : ℝ) < Real.log 2 := Real.log_pos one_lt_two
  have hl2lo : (0.6931471803 : ℝ) < Real.log 2 := Real.log_two_gt_d9
  have hl2hi : Real.log 2 < 0.6931471808 := Real.log_two_lt_d9
  have hAlo : (5.7702 : ℝ) < 4 / Real.log 2 := by
    rw [lt_div_iff₀ hl2pos]
    nlinarith
  have hAhi : (4 : ℝ) / Real.log 2 < 5.771 := by
    rw [div_lt_iff₀ hl2pos]
    nlinarith
  have hApos : (0 : ℝ) < 4 / Real.log 2 := by positivity
  have he_lo : (2.7182818283 : ℝ) < Real.exp 1 := Real.exp_one_gt_d9
  have he_hi : Real.exp 1 < 2.7182818286 := Real.exp_one_lt_d9
  have h1 : (1 : ℝ) < Real.log (4 / Real.log 2) := by
    rw [Real.lt_log_iff_exp_lt hApos]
    calc Real.exp 1 < 2.7182818286 := he_hi
      _ < 5.7702 := by norm_num
      _ < 4 / Real.log 2 := hAlo
  have h2 : Real.log (4 / Real.log 2) ≤ 2 := by
    rw [Real.log_le_iff_le_exp hApos]
    have hexp2 : (7.389 : ℝ) < Real.exp 2 := by
      have hsq : Real.exp 2 = Real.exp 1 * Real.exp 1 := by
        rw [← Real.exp_add]
        norm_num
      rw [hsq]
      nlinarith
    calc (4 : ℝ) / Real.log 2 ≤ 5.771 := le_of_lt hAhi
      _ ≤ 7.389 := by norm_num
      _ ≤ Real.exp 2 := le_of_lt hexp2
  have hceil2 : ⌈Real.log (4 / Real.log 2)⌉ = 2 := by
    rw [Int.ceil_eq_iff]
    constructor
    · push_cast
      linarith
    · push_cast
      exact h2
  have hceil6 : ⌈(4 : ℝ) / Real.log 2⌉ = 6 := by
    rw [Int.ceil_eq_iff]
    constructor
    · push_cast
      linarith
    · push_cast
      linarith
  refine ⟨?_, ?_, ?_⟩
  · unfold cardhistoUpper
    rw [hceil2]
    norm_num
  · unfold claimedCardUpper
    rw [hceil6]
    norm_num
  · unfold cardhistoUpper claimedCardUpper
    rw [hceil2, hceil6]
    norm_num

/-- C7 amended: the upper bin bound implemented by the cardinality
histogram is upper = 2 ^ ceil( log( max(cards) / log(2) ) ): the division
by log(2) is applied to max(cards) directly, inside the outer natural
logarithm, rather than to log(max(cards)). -/
theorem cardhisto_upper_formula :
    ∀ m : ℝ, cardhistoUpper m = amendedCardUpper m := fun _ => rfl

end SketchSpec
